import Mathlib

/-!
Shallow embedding of `logic.py` (the SymbolicLogic propositional-logic module):
tokenizer, statement construction, the stack/left-to-right evaluator, the
truth-table generator and the combiner, together with theorems settling the
frozen claims about the module.

Python values are modelled as follows: tokens and boolean values are the
strings the source uses (`"OPAREN"`, `"AND"`, `"True"`, ...); the global
`vars` dictionary is an association list without duplicate keys (insertion
updates in place, new keys are appended, matching CPython dict semantics);
Python exceptions (`KeyError`, `RuntimeError`, `IndexError`) and the implicit
`return None` fall-through of the truth-table helper functions are the
constructors of `Err`; loops whose termination is not structural carry an
explicit fuel argument, with `Err.outOfFuel` (respectively `none` for the
tokenizer) marking exhaustion — every entry point supplies fuel that is large
enough for all terminating source executions.
-/

namespace Logic

/-- Outcomes of a Python exception (or of the implicit `None` return of
`eval_bin_op`'s fall-through, or of fuel exhaustion in the model). -/
inductive Err where
  | keyError
  | runtimeError
  | indexError
  | pyNone
  | outOfFuel
deriving DecidableEq, Repr

/-- The global `vars` dictionary: an association list from variable name to
the strings `"True"` / `"False"`. -/
abbrev Dict := List (String × String)

/-- Python `vars[k]`, returning `none` where CPython raises `KeyError`. -/
def dictGet : Dict → String → Option String
  | [], _ => none
  | (k', v) :: rest, k => if k' = k then some v else dictGet rest k

/-- Python `vars[k] = v`: replace the entry in place if the key is present,
otherwise append it at the end (CPython dict insertion order). -/
def dictSet : Dict → String → String → Dict
  | [], k, v => [(k, v)]
  | (k', w) :: rest, k, v =>
      if k' = k then (k, v) :: rest else (k', w) :: dictSet rest k v

/-- Python `k in vars`. -/
def dictHas : Dict → String → Bool
  | [], _ => false
  | (k', _) :: rest, k => k' = k || dictHas rest k

/-- Source constant `tok_list`. -/
def tok_list : List String :=
  ["OPAREN", "CPAREN", "AND", "OR", "NOT", "IFTHEN", "IFF"]

/-- Source constant `bin_list`. -/
def bin_list : List String := ["AND", "OR", "IFTHEN", "IFF"]

/-- Source constant `operators = '()&|!<->'` as a character list. -/
def operators : List Char := ['(', ')', '&', '|', '!', '<', '-', '>']

/-! ## Tokenizer -/

/-- State of `tokenize`'s scanning loop.  `shared` is the contents of the
caller-supplied `toks` list object; when an invalid name is met the source
rebinds its local `toks` to a fresh empty list (`rebound := true`), after
which appends go to `fresh` and the caller's list no longer grows.
`printed` records the `Invalid variable name:` diagnostics. -/
structure TkState where
  i : Nat
  shared : List String
  fresh : List String
  rebound : Bool
  vars : Dict
  order : List String
  printed : List String
deriving DecidableEq, Repr

/-- Append a token to whichever list the source's local `toks` is bound to. -/
def tkAppend (st : TkState) (tok : String) : TkState :=
  if st.rebound then { st with fresh := st.fresh ++ [tok] }
  else { st with shared := st.shared ++ [tok] }

/-- The inner `while` of `tokenize` that accumulates a candidate variable
name: the maximal run of characters that are neither operators nor spaces. -/
def scanRun : List Char → List Char
  | [] => []
  | c :: rest =>
      if c ∈ operators ∨ c = ' ' then [] else c :: scanRun rest

/-- Validity test applied by `tokenize` to a non-empty candidate name:
`valid` stays 1 iff the first character is a letter and every character is a
letter, a digit, or an underscore. -/
def nameValid (tok : String) : Bool :=
  tok.toList.head?.elim true (fun c => c.isAlpha) &&
    tok.toList.all (fun c => c.isAlpha || c.isDigit || c = '_')

/-- One iteration of `tokenize`'s outer `while(i < len(s))` loop (only called
with `st.i < cs.length`). -/
def tkStep (cs : List Char) (st : TkState) : TkState :=
  let c := cs.getD st.i ' '
  let single : Option (String × Nat) :=
    if c = '(' then some ("OPAREN", 1)
    else if c = ')' then some ("CPAREN", 1)
    else if c = '&' then some ("AND", 1)
    else if c = '|' then some ("OR", 1)
    else if c = '!' then some ("NOT", 1)
    else if (cs.drop st.i).take 2 = ['-', '>'] then some ("IFTHEN", 2)
    else if (cs.drop st.i).take 3 = ['<', '-', '>'] then some ("IFF", 3)
    else none
  match single with
  | some (tok, skip) => tkAppend { st with i := st.i + skip } tok
  | none =>
      if c = ' ' then { st with i := st.i + 1 }
      else
        let run := scanRun (cs.drop st.i)
        let tok : String := ⟨run⟩
        let i' := st.i + run.length
        if run ≠ [] ∧ nameValid tok = false then
          { st with i := i', rebound := true, fresh := [],
                    printed := st.printed ++ [tok] }
        else
          let st' := tkAppend { st with i := i' } tok
          { st' with vars := dictSet st'.vars tok "False",
                     order := if st'.order.contains tok then st'.order
                              else st'.order ++ [tok] }

/-- The outer loop of `tokenize`, with explicit fuel; `none` means the fuel
was exhausted with the scan position still inside the string. -/
def tkLoop (cs : List Char) : Nat → TkState → Option TkState
  | 0, st => if st.i < cs.length then none else some st
  | f + 1, st =>
      if st.i < cs.length then tkLoop cs f (tkStep cs st) else some st

/-- Initial tokenizer state: the caller (`SymbolicLogic.statement`) passes
`toks = ['OPAREN']` and empty `vars` / `vars_order`. -/
def tkInit : TkState :=
  { i := 0, shared := ["OPAREN"], fresh := [], rebound := false,
    vars := [], order := [], printed := [] }

/-- Full `tokenize(s, toks)` call from `statement`: run the scanning loop
(fuel `|s| + 1` covers every terminating execution, since each productive
iteration advances `i`), then append the trailing `'CPAREN'`. -/
def tokenize (s : String) : Option TkState :=
  (tkLoop s.toList (s.length + 1) tkInit).map (fun st => tkAppend st "CPAREN")

/-! ## Statements -/

/-- A statement as built by `SymbolicLogic.statement`: the token list, the
variable dictionary and the first-occurrence name order. -/
structure Stmt where
  toks : List String
  vars : Dict
  order : List String
deriving DecidableEq, Repr

/-! ## Evaluator -/

/-- Python `l[j]` with negative-index wrap-around; `IndexError` outside
`[-len, len)`. -/
def pyGetI (l : List String) (j : Int) : Except Err String :=
  let n : Int := l.length
  let k : Int := if j < 0 then j + n else j
  if 0 ≤ k ∧ k < n then .ok (l.getD k.toNat "") else .error .indexError

/-- Python `l[j] = v` with negative-index wrap-around. -/
def pySetI (l : List String) (j : Int) (v : String) : Except Err (List String) :=
  let n : Int := l.length
  let k : Int := if j < 0 then j + n else j
  if 0 ≤ k ∧ k < n then .ok (l.set k.toNat v) else .error .indexError

/-- Python `del l[j]` for a non-negative index. -/
def pyDel (l : List String) (j : Nat) : Except Err (List String) :=
  if j < l.length then .ok (l.eraseIdx j) else .error .indexError

/-- Truth table of `and`; the final `none` is the source's implicit `None`
return when an operand is neither `'True'` nor `'False'`. -/
def eval_and_op (lval rval : String) : Option String :=
  if lval = "False" ∧ rval = "False" then some "False"
  else if lval = "False" ∧ rval = "True" then some "False"
  else if lval = "True" ∧ rval = "False" then some "False"
  else if lval = "True" ∧ rval = "True" then some "True"
  else none

/-- Truth table of `or`. -/
def eval_or_op (lval rval : String) : Option String :=
  if lval = "False" ∧ rval = "False" then some "False"
  else if lval = "False" ∧ rval = "True" then some "True"
  else if lval = "True" ∧ rval = "False" then some "True"
  else if lval = "True" ∧ rval = "True" then some "True"
  else none

/-- Truth table of `if then`. -/
def eval_ifthen_op (lval rval : String) : Option String :=
  if lval = "False" ∧ rval = "False" then some "True"
  else if lval = "False" ∧ rval = "True" then some "True"
  else if lval = "True" ∧ rval = "False" then some "False"
  else if lval = "True" ∧ rval = "True" then some "True"
  else none

/-- Truth table of `if and only if`. -/
def eval_iff_op (lval rval : String) : Option String :=
  if lval = "False" ∧ rval = "False" then some "True"
  else if lval = "False" ∧ rval = "True" then some "False"
  else if lval = "True" ∧ rval = "False" then some "False"
  else if lval = "True" ∧ rval = "True" then some "True"
  else none

/-- Operand resolution used by `eval_bin_op`: the literals `'False'` and
`'True'` stand for themselves, anything else is looked up in `vars`
(`KeyError` when absent). -/
def resolveOperand (vars : Dict) (t : String) : Except Err String :=
  if t = "False" then .ok "False"
  else if t = "True" then .ok "True"
  else
    match dictGet vars t with
    | some v => .ok v
    | none => .error .keyError

/-- Source `eval_bin_op(args)` on `args = [a0, a1, a2]`. -/
def eval_bin_op (a0 a1 a2 : String) (vars : Dict) : Except Err String := do
  let lval ← resolveOperand vars a0
  let rval ← resolveOperand vars a2
  let lift : Option String → Except Err String := fun r =>
    match r with
    | some v => .ok v
    | none => .error .pyNone
  if a1 = "AND" then lift (eval_and_op lval rval)
  else if a1 = "OR" then lift (eval_or_op lval rval)
  else if a1 = "IFTHEN" then lift (eval_ifthen_op lval rval)
  else if a1 = "IFF" then lift (eval_iff_op lval rval)
  else .error .pyNone

/-- Source `eval_mon_op(args)` on `args = ['NOT', a1]`. -/
def eval_mon_op (a1 : String) (vars : Dict) : Except Err String := do
  let val ←
    if a1 ≠ "True" ∧ a1 ≠ "False" then
      match dictGet vars a1 with
      | some v => Except.ok v
      | none => Except.error Err.keyError
    else Except.ok a1
  return if val = "True" then "False" else "True"

/-- The `while` loop of `reduce_monos`: at each `'NOT'` replace the pair
`['NOT', operand]` by the negated operand (reading `lrtoks[i+1]` raises
`IndexError` when the `'NOT'` is last), then advance. -/
def rmGo (vars : Dict) : Nat → List String → Nat → Except Err (List String)
  | 0, l, i => if i < l.length then .error .outOfFuel else .ok l
  | f + 1, l, i =>
      if i < l.length then
        if l.getD i "" = "NOT" then
          if i + 1 < l.length then
            match eval_mon_op (l.getD (i + 1) "") vars with
            | .error e => .error e
            | .ok v => rmGo vars f ((l.set i v).eraseIdx (i + 1)) (i + 1)
          else .error .indexError
        else rmGo vars f l (i + 1)
      else .ok l

/-- Source `reduce_monos(lrtoks)`; fuel `|lrtoks| + 1` bounds the loop since
`i` increases every iteration and the list never grows. -/
def reduce_monos (l : List String) (vars : Dict) : Except Err (List String) :=
  rmGo vars (l.length + 1) l 0

/-- The `while` loop of `reduce_bins`, including the recursive rescan the
source performs after each rewrite.  One fuel unit per loop iteration; the
entry point supplies `(|l| + 1)²`, enough for every source execution. -/
def rbGo (vars : Dict) : Nat → List String → Nat → Except Err (List String)
  | 0, l, i => if i < l.length then .error .outOfFuel else .ok l
  | f + 1, l, i =>
      if i < l.length then
        if bin_list.contains (l.getD i "") then
              match pyGetI l ((i : Int) - 1) with
              | .error e => .error e
              | .ok a0 =>
                match pyGetI l ((i : Int) + 1) with
                | .error e => .error e
                | .ok a2 =>
                  match eval_bin_op a0 (l.getD i "") a2 vars with
                  | .error e => .error e
                  | .ok v =>
                    match pySetI l ((i : Int) - 1) v with
                    | .error e => .error e
                    | .ok l1 =>
                      match pyDel l1 i with
                      | .error e => .error e
                      | .ok l2 =>
                        match pyDel l2 i with
                        | .error e => .error e
                        | .ok l3 =>
                          match rbGo vars f l3 0 with
                          | .error e => .error e
                          | .ok l4 => rbGo vars f l4 (i + 1)
            else rbGo vars f l (i + 1)
      else .ok l

/-- Source `reduce_bins(lrtoks)`. -/
def reduce_bins (l : List String) (vars : Dict) : Except Err (List String) :=
  rbGo vars ((l.length + 1) * (l.length + 1)) l 0

/-- Source `eval_ltor_toks(lrtoks)`: eliminate `'NOT'`s, then binary
operators; exactly one element must remain (`RuntimeError` for several,
`IndexError` for `lrtoks[0]` of an empty list). -/
def eval_ltor_toks (l : List String) (vars : Dict) : Except Err String :=
  match reduce_monos l vars with
  | .error e => .error e
  | .ok l1 =>
      match reduce_bins l1 vars with
      | .error e => .error e
      | .ok l2 =>
          match l2 with
          | [x] => .ok x
          | [] => .error .indexError
          | _ => .error .runtimeError

/-- The pop-until-`'OPAREN'` do-while inside `eval`.  The stack is kept with
its top at the head (the source appends and pops at the end of a list);
popped elements are re-reversed by prepending, exactly as
`lrtoks.insert(0, tok)` does.  Returns the remaining stack and the
reconstructed group including its parentheses. -/
def popLoop : List String → List String → Except Err (List String × List String)
  | [], _ => .error .indexError
  | t :: s, lr =>
      if t = "OPAREN" then .ok (s, t :: lr) else popLoop s (t :: lr)

/-- The scanning loop of `eval`: push each token; on a `'CPAREN'` pop the
group, reduce its interior (`lrtoks[1:-1]`) with `eval_ltor_toks`, and push
the result back. -/
def evalGo (vars : Dict) : List String → List String → Except Err String
  | [], stack =>
      match stack with
      | [x] => .ok x
      | [] => .error .indexError
      | _ => .error .runtimeError
  | tok :: rest, stack =>
      let stack1 := tok :: stack
      if tok = "CPAREN" then
        match popLoop stack1 [] with
        | .error e => .error e
        | .ok (stackRem, lrtoks) =>
          match eval_ltor_toks ((lrtoks.drop 1).dropLast) vars with
          | .error e => .error e
          | .ok v => evalGo vars rest (v :: stackRem)
      else evalGo vars rest stack1

/-- Source `eval(toks)` (reading variable values from `vars`). -/
def eval (toks : List String) (vars : Dict) : Except Err String :=
  evalGo vars toks []

/-! ## Statement construction -/

/-- Result of `SymbolicLogic.statement`: a statement, the caught
`Malformed Statement` case (the source prints and returns `[]`), an
exception that escapes the `except (KeyError, RuntimeError)` clause, or a
non-terminating tokenizer scan. -/
inductive ParseResult where
  | ok (st : Stmt)
  | malformed
  | fatal (e : Err)
  | diverge
deriving DecidableEq, Repr

/-- Source `SymbolicLogic.statement(s)`: tokenize, then verify the syntax by
one evaluation pass, catching exactly `KeyError` and `RuntimeError`. -/
def statement (s : String) : ParseResult :=
  match tokenize s with
  | none => .diverge
  | some tk =>
      let st : Stmt := ⟨tk.shared, tk.vars, tk.order⟩
      match eval st.toks st.vars with
      | .ok _ => .ok st
      | .error .keyError => .malformed
      | .error .runtimeError => .malformed
      | .error e => .fatal e

/-- The boundary-surface `evaluate(statement, assignment)` of the spec:
parse, override the registry defaults with the assignment, then run the
source's `eval`; `none` when parsing or evaluation fails. -/
def evaluate (s : String) (asg : Dict) : Option String :=
  match statement s with
  | .ok st =>
      match eval st.toks (asg.foldl (fun d kv => dictSet d kv.1 kv.2) st.vars) with
      | .ok v => some v
      | .error _ => none
  | _ => none

/-! ## Truth-table generator -/

/-- The `while(x > 0)` loop of `get_bit`, building the list of bits of `x`
from least significant upwards; fuel `x` suffices since halving a positive
number at least decrements it. -/
def pybits : Nat → Nat → List String
  | 0, _ => []
  | f + 1, x =>
      if x > 0 then (if x % 2 = 0 then "False" else "True") :: pybits f (x / 2)
      else []

/-- Source `get_bit(x, c)`: the string `'True'` iff bit `c` of `x` is 1. -/
def get_bit (x c : Nat) : String :=
  let bits := pybits x x
  if bits.length ≤ c then "False" else bits.getD c "False"

/-- The inner loop of `truthtable` for one assignment index `i`: walk the
reversed name list `keys`, give position `j` the value of bit `j` of `i`,
update `vars`, and prepend the bit to the row (`row.insert(0, bit)`).
Returns the row of variable columns and the updated dictionary. -/
def assignRow (i : Nat) : List String → Nat → Dict → List String →
    List String × Dict
  | [], _, vars, row => (row, vars)
  | k :: rest, j, vars, row =>
      let bit := get_bit i j
      assignRow i rest (j + 1) (dictSet vars k bit) (bit :: row)

/-- The outer `for i in range(start, end)` loop of `truthtable`: `count`
remaining indices starting at `i`, threading the mutable `vars` dictionary
from row to row; any evaluation exception propagates. -/
def ttLoop (toks keys : List String) :
    Dict → Nat → Nat → Except Err (List (List String) × Dict)
  | vars, _, 0 => .ok ([], vars)
  | vars, i, c + 1 =>
      let (row, v') := assignRow i keys 0 vars []
      match eval toks v' with
      | .error e => .error e
      | .ok res =>
          match ttLoop toks keys v' (i + 1) c with
          | .error e => .error e
          | .ok (rows, vf) => .ok ((row ++ [res]) :: rows, vf)

/-- A generated truth table: the source returns `[statement] + rows`, where
the head is the statement triple whose dictionary and (reversed-in-place)
name list reflect the mutations performed during generation. -/
structure TTable where
  head : Stmt
  rows : List (List String)
deriving DecidableEq, Repr

/-- Source `SymbolicLogic.truthtable(statement, start, end)`; `end = -1`
stands for the full `2 ** len(vars)` range.  Note the in-place
`keys.reverse()`: the returned head carries the reversed name order. -/
def truthtable (st : Stmt) (start : Nat) (end_ : Int) : Except Err TTable :=
  let endN : Nat := if end_ = -1 then 2 ^ st.vars.length else end_.toNat
  let keys := st.order.reverse
  match ttLoop st.toks keys st.vars start (endN - start) with
  | .error e => .error e
  | .ok (rows, vf) => .ok ⟨⟨st.toks, vf, keys⟩, rows⟩

/-! ## Combiner -/

/-- Lexicographic comparison of character lists by code point (the order
Python's `sorted` uses on strings). -/
def charListLt : List Char → List Char → Bool
  | [], [] => false
  | [], _ :: _ => true
  | _ :: _, [] => false
  | a :: as, b :: bs =>
      if a.toNat < b.toNat then true
      else if b.toNat < a.toNat then false
      else charListLt as bs

/-- Python `a < b` on strings. -/
def strLt (a b : String) : Bool := charListLt a.toList b.toList

/-- Insertion step of Python `sorted` on strings. -/
def insertSorted (s : String) : List String → List String
  | [] => [s]
  | t :: rest => if strLt t s then t :: insertSorted s rest else s :: t :: rest

/-- Python `sorted(...)` on a list of strings (lexicographic order). -/
def pysorted : List String → List String
  | [] => []
  | s :: rest => insertSorted s (pysorted rest)

/-- The Statement + Statement arm of `SymbolicLogic.combine`.  The source
builds `statement3 = [['OPAREN'], x[1], x[2]]`, so the new statement ALIASES
`x`'s dictionary and name list; copying `y`'s entries and appending `y`'s
names mutates `x` itself, and only the name list is then rebound to a fresh
sorted deduplicated copy.  The result is the pair
`(statement3, contents of x after the call)`; `y` is only read. -/
def combineSS (x y : Stmt) : Stmt × Stmt :=
  let toks3 := ["OPAREN"] ++ x.toks ++ ["OR"] ++ y.toks ++ ["CPAREN"]
  let varsM := y.vars.foldl (fun d kv => dictSet d kv.1 kv.2) x.vars
  let orderM := x.order ++ y.order
  (⟨toks3, varsM, pysorted orderM.eraseDups⟩, ⟨x.toks, varsM, orderM⟩)

/-- The String + String arm of `SymbolicLogic.combine`: build the literal
text `"(" + x + ")|(" + y + ")"` and parse it through `statement`. -/
def combineStr (x y : String) : ParseResult :=
  statement ("(" ++ x ++ ")|(" ++ y ++ ")")

/-! ## Specification-side definitions used to state the claims -/

/-- The source's string encoding of a boolean. -/
def bstr (b : Bool) : String := if b then "True" else "False"

/-- Mathematical meaning of one binary operator token (the truth tables of
§4.3 of the spec). -/
def applyOp (op : String) (a c : Bool) : Bool :=
  if op = "AND" then a && c
  else if op = "OR" then a || c
  else if op = "IFTHEN" then !a || c
  else a == c

/-- Tail of a parenthesis-free run: operator/operand pairs. -/
def runTail : List (String × Bool) → List String
  | [] => []
  | (op, c) :: rest => op :: bstr c :: runTail rest

/-- A parenthesis-free run of binary operators over boolean literals:
`b₀ op₁ b₁ op₂ b₂ …`. -/
def mkRun (b : Bool) (ops : List (String × Bool)) : List String :=
  bstr b :: runTail ops

/-- Strict left-to-right fold of a run, with no precedence between
operators. -/
def foldRun (b : Bool) : List (String × Bool) → Bool
  | [] => b
  | (op, c) :: rest => foldRun (applyOp op b c) rest

/-- The dictionary produced by the bit-assignment loop of `truthtable` for
assignment index `i` (the second component of `assignRow`). -/
def adRow (i : Nat) : List String → Nat → Dict → Dict
  | [], _, d => d
  | k :: rest, j, d => adRow i rest (j + 1) (dictSet d k (get_bit i j))

/-- The row the truth-table generator emits for assignment index `j` when
the dictionary before the row is `d`: variable columns followed by the
evaluation result; `none` if that evaluation raises. -/
def specRow (toks keys : List String) (d : Dict) (j : Nat) :
    Option (List String) :=
  match eval toks (adRow j keys 0 d) with
  | .ok r => some ((assignRow j keys 0 d []).1 ++ [r])
  | .error _ => none

/-! ## Python indexing lemmas -/

theorem pyGetI_zero (x : String) (t : List String) :
    pyGetI (x :: t) 0 = .ok x := by
  simp [pyGetI]

theorem pyGetI_two (a b c : String) (t : List String) :
    pyGetI (a :: b :: c :: t) 2 = .ok c := by
  have h2 : ((2 : Int)).toNat = 2 := rfl
  simp [pyGetI, h2]
  omega

theorem pySetI_zero (x v : String) (t : List String) :
    pySetI (x :: t) 0 v = .ok (v :: t) := by
  simp [pySetI]

theorem pyDel_one (a b : String) (t : List String) :
    pyDel (a :: b :: t) 1 = .ok (a :: t) := by
  simp [pyDel, List.eraseIdx]

/-! ## Run-shape lemmas for the left-to-right reduction -/

theorem runTail_length (ops : List (String × Bool)) :
    (runTail ops).length = 2 * ops.length := by
  induction ops with
  | nil => rfl
  | cons p rest ih =>
      obtain ⟨op, c⟩ := p
      simp [runTail, ih]
      omega

theorem mkRun_length (b : Bool) (ops : List (String × Bool)) :
    (mkRun b ops).length = 2 * ops.length + 1 := by
  simp [mkRun, runTail_length]

theorem bstr_ne_NOT (b : Bool) : bstr b ≠ "NOT" := by
  cases b <;> decide

theorem bin_not_bstr (b : Bool) : bin_list.contains (bstr b) = false := by
  cases b <;> rfl

theorem mkRun_ne_NOT (b : Bool) (ops : List (String × Bool))
    (hop : ∀ p ∈ ops, p.1 ∈ bin_list) : ∀ t ∈ mkRun b ops, t ≠ "NOT" := by
  induction ops generalizing b with
  | nil =>
      intro t ht
      simp [mkRun, runTail] at ht
      exact ht ▸ bstr_ne_NOT b
  | cons p rest ih =>
      obtain ⟨op, c⟩ := p
      intro t ht
      have hopb : op ∈ bin_list := hop (op, c) (List.mem_cons_self _ _)
      rcases (by simpa [mkRun, runTail] using ht :
          t = bstr b ∨ t = op ∨ t = bstr c ∨ t ∈ runTail rest) with h | h | h | h
      · exact h ▸ bstr_ne_NOT b
      · subst h
        intro hno
        rw [hno] at hopb
        exact absurd hopb (by decide)
      · exact h ▸ bstr_ne_NOT c
      · exact ih c (fun q hq => hop q (List.mem_cons_of_mem _ hq)) t
          (by simp [mkRun, h])

/-! ## The `reduce_monos` pass is the identity on NOT-free runs -/

theorem rmGo_no_not (vars : Dict) (l : List String)
    (hl : ∀ t ∈ l, t ≠ "NOT") :
    ∀ (fuel i : Nat), l.length ≤ i + fuel → rmGo vars fuel l i = .ok l := by
  intro fuel
  induction fuel with
  | zero =>
      intro i h
      simp [rmGo, Nat.not_lt.mpr (by omega : l.length ≤ i)]
  | succ f ih =>
      intro i h
      by_cases hi : i < l.length
      · have hmem : l.getD i "" ∈ l := by
          rw [List.getD_eq_getElem?_getD, List.getElem?_eq_getElem hi]
          simp [List.getElem_mem hi]
        have hne : ¬ l.getD i "" = "NOT" := hl _ hmem
        simp only [rmGo, if_pos hi, if_neg hne]
        exact ih (i + 1) (by omega)
      · simp [rmGo, hi]

theorem reduce_monos_no_not (l : List String) (vars : Dict)
    (hl : ∀ t ∈ l, t ≠ "NOT") : reduce_monos l vars = .ok l :=
  rmGo_no_not vars l hl (l.length + 1) 0 (by omega)

/-! ## The `reduce_bins` pass computes the left-to-right fold -/

theorem eval_bin_op_bstr (op : String) (hop : op ∈ bin_list) (a c : Bool)
    (vars : Dict) :
    eval_bin_op (bstr a) op (bstr c) vars = .ok (bstr (applyOp op a c)) := by
  fin_cases hop <;> cases a <;> cases c <;> rfl

theorem rbGo_exit (vars : Dict) (fuel : Nat) (l : List String) (i : Nat)
    (h : l.length ≤ i) : rbGo vars fuel l i = .ok l := by
  cases fuel <;> simp [rbGo, Nat.not_lt.mpr h]

theorem rbGo_zero_skip (vars : Dict) (f : Nat) (x : String)
    (hx : bin_list.contains x = false) (tail : List String) :
    rbGo vars (f + 1) (x :: tail) 0 = rbGo vars f (x :: tail) 1 := by
  have h0 : 0 < (x :: tail).length := by simp
  have hgd : (x :: tail).getD 0 "" = x := rfl
  simp only [rbGo, if_pos h0, hgd, hx]
  simp

theorem rbGo_run (vars : Dict) (ops : List (String × Bool)) :
    ∀ (b : Bool) (fuel : Nat),
      (∀ p ∈ ops, p.1 ∈ bin_list) → 2 * ops.length ≤ fuel →
      rbGo vars fuel (mkRun b ops) 1 = .ok [bstr (foldRun b ops)] := by
  induction ops with
  | nil =>
      intro b fuel _ _
      exact rbGo_exit vars fuel _ 1 (by simp [mkRun, runTail])
  | cons p rest ih =>
      obtain ⟨op, c⟩ := p
      intro b fuel hop hfuel
      simp only [List.length_cons] at hfuel
      obtain ⟨f, rfl⟩ : ∃ f, fuel = f + 1 := ⟨fuel - 1, by omega⟩
      have hopb : op ∈ bin_list := hop (op, c) (List.mem_cons_self _ _)
      have hcon : bin_list.contains op = true := List.elem_iff.mpr hopb
      have hshape : mkRun b ((op, c) :: rest) =
          bstr b :: op :: bstr c :: runTail rest := rfl
      rw [hshape]
      have h1lt : 1 < (bstr b :: op :: bstr c :: runTail rest).length := by
        simp
      have hgd : (bstr b :: op :: bstr c :: runTail rest).getD 1 "" = op := rfl
      have e0 : ((1 : Nat) : Int) - 1 = 0 := by norm_num
      have e2 : ((1 : Nat) : Int) + 1 = 2 := by norm_num
      simp only [rbGo, if_pos h1lt, hgd, hcon, if_true, e0, e2, pyGetI_zero,
        pyGetI_two, eval_bin_op_bstr op hopb, pySetI_zero, pyDel_one]
      obtain ⟨g, rfl⟩ : ∃ g, f = g + 1 := ⟨f - 1, by omega⟩
      rw [rbGo_zero_skip vars g (bstr (applyOp op b c))
            (bin_not_bstr _) (runTail rest)]
      rw [show (bstr (applyOp op b c) :: runTail rest) =
            mkRun (applyOp op b c) rest from rfl]
      rw [ih (applyOp op b c) g
            (fun q hq => hop q (List.mem_cons_of_mem _ hq)) (by omega)]
      exact rbGo_exit vars (g + 1) _ 2 (by simp)

theorem reduce_bins_run (vars : Dict) (b : Bool)
    (ops : List (String × Bool)) (hop : ∀ p ∈ ops, p.1 ∈ bin_list) :
    reduce_bins (mkRun b ops) vars = .ok [bstr (foldRun b ops)] := by
  unfold reduce_bins
  rw [mkRun_length]
  have hm : 2 * ops.length + 2 ≤
      (2 * ops.length + 1 + 1) * (2 * ops.length + 1 + 1) :=
    Nat.le_mul_of_pos_left _ (by omega)
  obtain ⟨g, hg⟩ : ∃ g, (2 * ops.length + 1 + 1) * (2 * ops.length + 1 + 1) =
      g + 1 :=
    ⟨(2 * ops.length + 1 + 1) * (2 * ops.length + 1 + 1) - 1, by omega⟩
  rw [hg]
  have hb : mkRun b ops = bstr b :: runTail ops := rfl
  rw [hb, rbGo_zero_skip vars g (bstr b) (bin_not_bstr _) (runTail ops),
      ← hb, rbGo_run vars ops b g hop (by omega)]

theorem eval_ltor_run (vars : Dict) (b : Bool) (ops : List (String × Bool))
    (hop : ∀ p ∈ ops, p.1 ∈ bin_list) :
    eval_ltor_toks (mkRun b ops) vars = .ok (bstr (foldRun b ops)) := by
  have h1 := reduce_monos_no_not (mkRun b ops) vars (mkRun_ne_NOT b ops hop)
  have h2 := reduce_bins_run vars b ops hop
  simp [eval_ltor_toks, h1, h2]

/-- Claim C1: in a parenthesis-free run the binary operators AND, OR,
IFTHEN, IFF are applied at one shared precedence level, strictly left to
right (the inner reduction computes the left-to-right fold of the run); in
particular `a&b|c` under `{a:T,b:F,c:T}` is `(T&F)|T = true` and `a|b&c`
under `{a:F,b:T,c:F}` is `(F|T)&F = false`, and only explicit parentheses
change the grouping (`a&(b|c)` under `{a:F,b:T,c:T}` is `false`). -/
theorem claim_C1 :
    (∀ (b : Bool) (ops : List (String × Bool)) (vars : Dict),
       (∀ p ∈ ops, p.1 ∈ bin_list) →
       eval_ltor_toks (mkRun b ops) vars = .ok (bstr (foldRun b ops))) ∧
    evaluate "a&b|c" [("a", "True"), ("b", "False"), ("c", "True")] =
      some "True" ∧
    evaluate "a|b&c" [("a", "False"), ("b", "True"), ("c", "False")] =
      some "False" ∧
    evaluate "a&(b|c)" [("a", "False"), ("b", "True"), ("c", "True")] =
      some "False" :=
  ⟨fun b ops vars hop => eval_ltor_run vars b ops hop, rfl, rfl, rfl⟩

/-- Witness for C1: the general left-to-right law applied to the concrete
run `true AND false OR true`, whose fold is `(T&F)|T = true`. -/
theorem claim_C1_witness :
    (∀ p ∈ ([("AND", false), ("OR", true)] : List (String × Bool)),
       p.1 ∈ bin_list) ∧
    eval_ltor_toks (mkRun true [("AND", false), ("OR", true)]) [] =
      .ok "True" :=
  ⟨by decide, claim_C1.1 true [("AND", false), ("OR", true)] [] (by decide)⟩

/-! ## Tokenizer-loop lemmas -/

theorem tkAppend_i (st : TkState) (t : String) : (tkAppend st t).i = st.i := by
  unfold tkAppend; split <;> rfl

theorem tkStep_stuck_lt {st : TkState} (h : st.i = 0) :
    (tkStep ['<'] st).i = 0 := by
  simp [tkStep, h, scanRun, operators, nameValid, tkAppend]
  split <;> rfl

theorem tkStep_stuck_dash {st : TkState} (h : st.i = 0) :
    (tkStep ['-'] st).i = 0 := by
  simp [tkStep, h, scanRun, operators, nameValid, tkAppend]
  split <;> rfl

theorem tkLoop_stuck (cs : List Char) (hlen : cs ≠ [])
    (hstep : ∀ st : TkState, st.i = 0 → (tkStep cs st).i = 0) :
    ∀ (fuel : Nat) (st : TkState), st.i = 0 → tkLoop cs fuel st = none := by
  intro fuel
  induction fuel with
  | zero =>
      intro st h
      simp [tkLoop, h, List.length_pos.mpr hlen]
  | succ f ih =>
      intro st h
      have hlt : st.i < cs.length := h ▸ List.length_pos.mpr hlen
      simp only [tkLoop, if_pos hlt]
      exact ih _ (hstep st h)

/-- Claim C9: tokenization terminates on every input string — for every
character of the input, the scan position eventually advances past it,
including characters such as `<` or `-` that do not begin `->` or `<->`.
The code refutes this: on the inputs `"<"` and `"-"` the scanning loop
never leaves position 0 (for every fuel bound the loop is still running),
so `tokenize`, and with it `statement`, never returns. -/
theorem claim_C9 :
    (∀ fuel : Nat, tkLoop "<".toList fuel tkInit = none) ∧
    (∀ fuel : Nat, tkLoop "-".toList fuel tkInit = none) ∧
    tokenize "<" = none ∧ statement "<" = ParseResult.diverge := by
  refine ⟨?_, ?_, rfl, rfl⟩
  · intro fuel
    exact tkLoop_stuck ['<'] (by simp) (fun st h => tkStep_stuck_lt h)
      fuel tkInit rfl
  · intro fuel
    exact tkLoop_stuck ['-'] (by simp) (fun st h => tkStep_stuck_dash h)
      fuel tkInit rfl

/-- Claim C4: with one or more invalid variable names the scan continues
(every invalid name is reported), but the overall call does NOT fail: on
`"3x & y"` the source prints the one diagnostic `3x`, yet — because the
invalid-name branch rebinds its local `toks` to a fresh list — `statement`
verifies the truncated caller-side list `['OPAREN']` successfully and
returns a statement-shaped value instead of failing. -/
theorem claim_C4 :
    (tokenize "3x & y").map TkState.printed = some ["3x"] ∧
    (tokenize "3fe & @q").map TkState.printed = some ["3fe", "@q"] ∧
    statement "3x & y" =
      ParseResult.ok ⟨["OPAREN"], [("y", "False")], ["y"]⟩ ∧
    (∀ st : Stmt, ParseResult.ok st ≠ ParseResult.malformed) :=
  ⟨rfl, rfl, rfl, fun _ => by simp⟩

/-- Claim C5: for every valid single-variable expression `v`, evaluating
the parsed statement with `v := true` allegedly yields `true` and with
`v := false` yields `false`.  The code refutes this: a bare variable
reduces to its own name token, which is never resolved through the
registry, so evaluation of `"a"` returns the string `'a'` under both
assignments. -/
theorem claim_C5 :
    statement "a" =
      ParseResult.ok ⟨["OPAREN", "a", "CPAREN"], [("a", "False")], ["a"]⟩ ∧
    evaluate "a" [("a", "True")] = some "a" ∧
    evaluate "a" [("a", "False")] = some "a" ∧
    some "a" ≠ some "True" ∧ some "a" ≠ some "False" :=
  ⟨rfl, rfl, rfl, by decide, by decide⟩

/-- Claim C6 counterexample: evaluating `"!!v"` under `v := true` does not
yield `true` — the first `NOT` takes the second `NOT` as its operand, the
registry lookup of `'NOT'` raises `KeyError`, and `statement "!!v"` is
already rejected as malformed. -/
theorem cex_C6 :
    statement "!!v" = ParseResult.malformed ∧
    evaluate "!!v" [("v", "True")] = none ∧
    (none : Option String) ≠ some "True" :=
  ⟨rfl, rfl, by decide⟩

/-- Claim C6, amended: double negation is identity once the inner negation
is parenthesized — for every boolean `x`, evaluating `"!(!v)"` under
`v := x` yields `x` (the unparenthesized `"!!v"` itself fails to parse). -/
theorem claim_C6 (x : Bool) :
    evaluate "!(!v)" [("v", bstr x)] = some (bstr x) := by
  cases x <;> rfl

/-- Claim C7: combine on two strings builds the literal text `"(a)|(b)"`,
parses it through the normal constructor, and the result is semantically
disjunction: for every assignment of the two variables the combined
statement evaluates to the boolean OR of the assigned values. -/
theorem claim_C7 :
    combineStr "a" "b" = statement "(a)|(b)" ∧
    combineStr "a" "b" =
      ParseResult.ok
        ⟨["OPAREN", "OPAREN", "a", "CPAREN", "OR", "OPAREN", "b", "CPAREN",
          "CPAREN"],
         [("a", "False"), ("b", "False")], ["a", "b"]⟩ ∧
    ∀ x y : Bool,
      evaluate "(a)|(b)" [("a", bstr x), ("b", bstr y)] =
        some (bstr (x || y)) :=
  ⟨rfl, rfl, fun x y => by cases x <;> cases y <;> rfl⟩

/-- Claim C8: unbalanced parentheses are allegedly always reported as the
caught MalformedStatement failure, with no input producing an unhandled
fatal condition.  The code refutes the universal part: `"a&((b)"` is
indeed caught (`RuntimeError` → malformed), but on `"("` the reduction of
the empty group raises `IndexError`, which escapes the
`except (KeyError, RuntimeError)` clause uncaught. -/
theorem claim_C8 :
    statement "a&((b)" = ParseResult.malformed ∧
    statement "(" = ParseResult.fatal Err.indexError ∧
    ParseResult.fatal Err.indexError ≠ ParseResult.malformed :=
  ⟨rfl, rfl, by decide⟩

/-! ## Dictionary-update algebra (for the truth-table range claims) -/

theorem dictSet_absorb (d : Dict) (k v w : String) :
    dictSet (dictSet d k v) k w = dictSet d k w := by
  induction d with
  | nil => simp [dictSet]
  | cons p t ih =>
      obtain ⟨k', u⟩ := p
      by_cases h : k' = k
      · subst h; simp [dictSet]
      · simp [dictSet, h, ih]

theorem dictHas_dictSet_self (d : Dict) (k v : String) :
    dictHas (dictSet d k v) k = true := by
  induction d with
  | nil => simp [dictSet, dictHas]
  | cons p t ih =>
      obtain ⟨k', u⟩ := p
      by_cases h : k' = k
      · subst h; simp [dictSet, dictHas]
      · simp [dictSet, dictHas, h, ih]

theorem dictHas_dictSet_ne (d : Dict) (k k' v : String) (hne : k' ≠ k) :
    dictHas (dictSet d k' v) k = dictHas d k := by
  induction d with
  | nil => simp [dictSet, dictHas, hne]
  | cons p t ih =>
      obtain ⟨k₀, u⟩ := p
      by_cases h : k₀ = k'
      · subst h; simp [dictSet, dictHas, hne]
      · simp [dictSet, dictHas, h, ih]

theorem dictSet_comm (d : Dict) (k k' v w : String) (hne : k' ≠ k)
    (hk : dictHas d k = true) :
    dictSet (dictSet d k' w) k v = dictSet (dictSet d k v) k' w := by
  induction d with
  | nil => simp [dictHas] at hk
  | cons p t ih =>
      obtain ⟨k₀, u⟩ := p
      by_cases h0k : k₀ = k
      · subst h0k
        simp [dictSet, hne, Ne.symm hne]
      · by_cases h0k' : k₀ = k'
        · subst h0k'
          simp [dictSet, hne, h0k]
        · have hk' : dictHas t k = true := by
            simpa [dictHas, h0k] using hk
          simp [dictSet, h0k, h0k', ih hk']

theorem adRow_set_comm (i : Nat) (ks : List String) (k v : String) :
    ∀ (j : Nat) (d : Dict), dictHas d k = true → k ∉ ks →
      dictSet (adRow i ks j d) k v = adRow i ks j (dictSet d k v) := by
  induction ks with
  | nil => intro j d _ _; rfl
  | cons k₀ t ih =>
      intro j d hk hkm
      have hne : k₀ ≠ k := fun h => hkm (h ▸ List.mem_cons_self _ _)
      have hkt : k ∉ t := fun h => hkm (List.mem_cons_of_mem _ h)
      show dictSet (adRow i t (j + 1) (dictSet d k₀ (get_bit i j))) k v = _
      rw [ih (j + 1) (dictSet d k₀ (get_bit i j))
            ((dictHas_dictSet_ne d k k₀ _ hne).symm ▸ hk) hkt,
          dictSet_comm d k k₀ v (get_bit i j) hne hk]
      rfl

theorem adRow_adRow (i j : Nat) (ks : List String) (hnd : ks.Nodup) :
    ∀ (p : Nat) (d : Dict), adRow i ks p (adRow j ks p d) = adRow i ks p d := by
  induction ks with
  | nil => intro p d; rfl
  | cons k t ih =>
      intro p d
      obtain ⟨hkm, hnd'⟩ := List.nodup_cons.mp hnd
      show adRow i t (p + 1)
          (dictSet (adRow j t (p + 1) (dictSet d k (get_bit j p))) k
            (get_bit i p)) = _
      rw [adRow_set_comm j t k (get_bit i p) (p + 1)
            (dictSet d k (get_bit j p)) (dictHas_dictSet_self d k _) hkm,
          dictSet_absorb d k (get_bit j p) (get_bit i p), ih hnd' (p + 1)]
      rfl

theorem assignRow_snd (i : Nat) :
    ∀ (ks : List String) (j : Nat) (d : Dict) (row : List String),
      (assignRow i ks j d row).2 = adRow i ks j d := by
  intro ks
  induction ks with
  | nil => intro j d row; rfl
  | cons k t ih => intro j d row; exact ih (j + 1) _ _

theorem assignRow_fst (i : Nat) :
    ∀ (keys : List String) (j : Nat) (vars : Dict) (row : List String),
      (assignRow i keys j vars row).1 =
        ((List.range' j keys.length).map (get_bit i)).reverse ++ row := by
  intro keys
  induction keys with
  | nil => intro j vars row; simp [assignRow]
  | cons k rest ih =>
      intro j vars row
      rw [show assignRow i (k :: rest) j vars row =
            assignRow i rest (j + 1) (dictSet vars k (get_bit i j))
              (get_bit i j :: row) from rfl, ih]
      simp [List.range'_succ, List.append_assoc]

theorem specRow_base (toks keys : List String) (hnd : keys.Nodup)
    (d : Dict) (i j : Nat) :
    specRow toks keys (adRow i keys 0 d) j = specRow toks keys d j := by
  unfold specRow
  rw [adRow_adRow j i keys hnd 0 d]
  have h1 := assignRow_fst j keys 0 (adRow i keys 0 d) []
  have h2 := assignRow_fst j keys 0 d []
  rw [h1, h2]

theorem ttLoop_spec (toks keys : List String) (hnd : keys.Nodup) :
    ∀ (count i : Nat) (d : Dict) (rows : List (List String)) (vf : Dict),
      ttLoop toks keys d i count = .ok (rows, vf) →
      rows.length = count ∧
      ∀ m, m < count → rows.get? m = specRow toks keys d (i + m) := by
  intro count
  induction count with
  | zero =>
      intro i d rows vf h
      simp [ttLoop] at h
      obtain ⟨h1, h2⟩ := h
      subst h1
      exact ⟨rfl, fun m hm => absurd hm (by omega)⟩
  | succ c ih =>
      intro i d rows vf h
      simp only [ttLoop] at h
      rcases hq : assignRow i keys 0 d [] with ⟨row0, v'⟩
      rw [hq] at h
      cases he : eval toks v' with
      | error e => rw [he] at h; simp at h
      | ok res =>
          rw [he] at h
          cases ht : ttLoop toks keys v' (i + 1) c with
          | error e => rw [ht] at h; simp at h
          | ok pr =>
              obtain ⟨rows', vf'⟩ := pr
              rw [ht] at h
              simp at h
              obtain ⟨hrows, hvf⟩ := h
              subst hrows
              obtain ⟨ihlen, ihrow⟩ := ih (i + 1) v' rows' vf' ht
              have hv' : v' = adRow i keys 0 d := by
                rw [← assignRow_snd i keys 0 d [], hq]
              have hrow0 : row0 = (assignRow i keys 0 d []).1 := by
                rw [hq]
              refine ⟨by simp [ihlen], ?_⟩
              intro m hm
              match m with
              | 0 =>
                  show some (row0 ++ [res]) = specRow toks keys d (i + 0)
                  unfold specRow
                  rw [show i + 0 = i from rfl, ← hv', he, hrow0]
              | Nat.succ m' =>
                  show rows'.get? m' = specRow toks keys d (i + (m' + 1))
                  rw [ihrow m' (by omega), hv',
                      specRow_base toks keys hnd d i (i + 1 + m'),
                      show i + 1 + m' = i + (m' + 1) by omega]

/-! ## Truth-table lemmas -/

/-- Claim C3: for any Statement, the truth-table generator over the partial
range `[1, 3)` returns exactly the rows for assignment indices 1 and 2, and
each of those rows is identical in content to the corresponding row of a
full-range call on the same Statement (the correspondence for index `k + 1`
is read off whenever the full table, which has `2 ^ n` rows, contains that
index). -/
theorem claim_C3 (st : Stmt) (hnd : st.order.Nodup) (Tf Tp : TTable)
    (hf : truthtable st 0 (-1) = .ok Tf) (hp : truthtable st 1 3 = .ok Tp) :
    Tp.rows.length = 2 ∧
    ∀ k, k < 2 → k + 1 < 2 ^ st.vars.length →
      Tp.rows.get? k = Tf.rows.get? (k + 1) := by
  have hndr : st.order.reverse.Nodup := List.nodup_reverse.mpr hnd
  simp only [truthtable, show ((-1 : Int) = -1) = True by simp,
    show ((3 : Int) = -1) = False by simp, if_true, if_false, Nat.sub_zero,
    show ((3 : Int)).toNat - 1 = 2 from rfl] at hf hp
  cases hF : ttLoop st.toks st.order.reverse st.vars 0 (2 ^ st.vars.length)
    with
  | error e => rw [hF] at hf; simp at hf
  | ok prF =>
      obtain ⟨rowsF, vfF⟩ := prF
      rw [hF] at hf
      simp at hf
      cases hP : ttLoop st.toks st.order.reverse st.vars 1 2 with
      | error e => rw [hP] at hp; simp at hp
      | ok prP =>
          obtain ⟨rowsP, vfP⟩ := prP
          rw [hP] at hp
          simp at hp
          obtain ⟨lenF, rowF⟩ :=
            ttLoop_spec st.toks st.order.reverse hndr _ 0 st.vars rowsF vfF hF
          obtain ⟨lenP, rowP⟩ :=
            ttLoop_spec st.toks st.order.reverse hndr _ 1 st.vars rowsP vfP hP
          refine ⟨by rw [← hp]; exact lenP, ?_⟩
          intro k hk hk2
          rw [← hp, ← hf]
          show rowsP.get? k = rowsF.get? (k + 1)
          rw [rowP k (by omega), rowF (k + 1) (by omega),
              show (0 : Nat) + (k + 1) = 1 + k by omega]

/-- Witness for C3: the partial call `[1, 3)` on the parsed `"a&b"` returns
two rows, and its first row coincides with row 1 of the full call. -/
theorem claim_C3_witness :
    (["a", "b"] : List String).Nodup ∧ (0 : Nat) < 2 ∧ 0 + 1 < 2 ^ 2 ∧
    ∃ Tf Tp : TTable,
      truthtable
          ⟨["OPAREN", "a", "AND", "b", "CPAREN"],
           [("a", "False"), ("b", "False")], ["a", "b"]⟩ 0 (-1) = .ok Tf ∧
      truthtable
          ⟨["OPAREN", "a", "AND", "b", "CPAREN"],
           [("a", "False"), ("b", "False")], ["a", "b"]⟩ 1 3 = .ok Tp ∧
      Tp.rows.length = 2 ∧ Tp.rows.get? 0 = Tf.rows.get? 1 := by
  have h :=
    claim_C3
      ⟨["OPAREN", "a", "AND", "b", "CPAREN"],
       [("a", "False"), ("b", "False")], ["a", "b"]⟩ (by decide)
      ⟨⟨["OPAREN", "a", "AND", "b", "CPAREN"],
        [("a", "True"), ("b", "True")], ["b", "a"]⟩,
       [["False", "False", "False"], ["False", "True", "False"],
        ["True", "False", "False"], ["True", "True", "True"]]⟩
      ⟨⟨["OPAREN", "a", "AND", "b", "CPAREN"],
        [("a", "True"), ("b", "False")], ["b", "a"]⟩,
       [["False", "True", "False"], ["True", "False", "False"]]⟩
      rfl rfl
  exact ⟨by decide, by decide, by decide, _, _, rfl, rfl, h.1,
    h.2 0 (by decide) (by decide)⟩

/-- Claim C2: the full truth table of `parse("a&b")` has exactly 4 rows, in
assignment-index order, with variable columns (in first-occurrence order
`a`, `b`) `FF, FT, TF, TT` and results `F, F, F, T`; bit 0 of the row index
drives the last-discovered variable (`b`, fastest-changing) and the highest
bit the first-discovered one (`a`).  The third conjunct is the general
mapping rule: the row emitted for index `i` lists, in first-occurrence
order, bit `n-1` of `i` down to bit `0` of `i` — position `j` of the
reversed name list receives bit `j`. -/
theorem claim_C2 :
    statement "a&b" =
      ParseResult.ok
        ⟨["OPAREN", "a", "AND", "b", "CPAREN"],
         [("a", "False"), ("b", "False")], ["a", "b"]⟩ ∧
    truthtable
        ⟨["OPAREN", "a", "AND", "b", "CPAREN"],
         [("a", "False"), ("b", "False")], ["a", "b"]⟩ 0 (-1) =
      Except.ok
        ⟨⟨["OPAREN", "a", "AND", "b", "CPAREN"],
          [("a", "True"), ("b", "True")], ["b", "a"]⟩,
         [["False", "False", "False"], ["False", "True", "False"],
          ["True", "False", "False"], ["True", "True", "True"]]⟩ ∧
    (∀ (i : Nat) (keys : List String) (vars : Dict),
       (assignRow i keys 0 vars []).1 =
         ((List.range' 0 keys.length).map (get_bit i)).reverse) ∧
    [get_bit 0 0, get_bit 1 0, get_bit 2 0, get_bit 3 0] =
      ["False", "True", "False", "True"] ∧
    [get_bit 0 1, get_bit 1 1, get_bit 2 1, get_bit 3 1] =
      ["False", "False", "True", "True"] :=
  ⟨rfl, rfl, fun i keys vars => by simpa using assignRow_fst i keys 0 vars [],
   rfl, rfl⟩

/-- Claim C10 counterexample: combining the parsed statements of `"a&b"`
and `"c&d"` does NOT leave the first input unchanged — after the call its
registry holds `c` and `d` as well and its name list has the second input's
names appended, because `combine` builds the result around the first
input's own dictionary and list objects. -/
theorem cex_C10 :
    statement "a&b" =
      ParseResult.ok
        ⟨["OPAREN", "a", "AND", "b", "CPAREN"],
         [("a", "False"), ("b", "False")], ["a", "b"]⟩ ∧
    statement "c&d" =
      ParseResult.ok
        ⟨["OPAREN", "c", "AND", "d", "CPAREN"],
         [("c", "False"), ("d", "False")], ["c", "d"]⟩ ∧
    (combineSS
        ⟨["OPAREN", "a", "AND", "b", "CPAREN"],
         [("a", "False"), ("b", "False")], ["a", "b"]⟩
        ⟨["OPAREN", "c", "AND", "d", "CPAREN"],
         [("c", "False"), ("d", "False")], ["c", "d"]⟩).2 =
      ⟨["OPAREN", "a", "AND", "b", "CPAREN"],
       [("a", "False"), ("b", "False"), ("c", "False"), ("d", "False")],
       ["a", "b", "c", "d"]⟩ ∧
    (⟨["OPAREN", "a", "AND", "b", "CPAREN"],
      [("a", "False"), ("b", "False"), ("c", "False"), ("d", "False")],
      ["a", "b", "c", "d"]⟩ : Stmt) ≠
      ⟨["OPAREN", "a", "AND", "b", "CPAREN"],
       [("a", "False"), ("b", "False")], ["a", "b"]⟩ :=
  ⟨rfl, rfl, rfl, by decide⟩

/-- Claim C10, amended: combine on two Statements returns a result whose
token list is freshly built, but whose registry IS the first input's
registry updated in place with the second input's entries (result and
first-input-after-call share it), and the first input's ordered-name list
is extended in place with the second input's names; only the result's name
list is rebound to a fresh sorted deduplicated copy.  The second input is
only read.  Concretely, on the parsed `"a&b"` and `"c&d"` the call returns
the documented combined statement while leaving the first input's registry
and name order enlarged. -/
theorem claim_C10 :
    (∀ x y : Stmt,
       (combineSS x y).1.vars = (combineSS x y).2.vars ∧
       (combineSS x y).2.toks = x.toks ∧
       (combineSS x y).2.order = x.order ++ y.order ∧
       (combineSS x y).1.order = pysorted (x.order ++ y.order).eraseDups) ∧
    combineSS
        ⟨["OPAREN", "a", "AND", "b", "CPAREN"],
         [("a", "False"), ("b", "False")], ["a", "b"]⟩
        ⟨["OPAREN", "c", "AND", "d", "CPAREN"],
         [("c", "False"), ("d", "False")], ["c", "d"]⟩ =
      (⟨["OPAREN", "OPAREN", "a", "AND", "b", "CPAREN", "OR", "OPAREN", "c",
         "AND", "d", "CPAREN", "CPAREN"],
        [("a", "False"), ("b", "False"), ("c", "False"), ("d", "False")],
        ["a", "b", "c", "d"]⟩,
       ⟨["OPAREN", "a", "AND", "b", "CPAREN"],
        [("a", "False"), ("b", "False"), ("c", "False"), ("d", "False")],
        ["a", "b", "c", "d"]⟩) :=
  ⟨fun x y => ⟨rfl, rfl, rfl, rfl⟩, by decide⟩

end Logic
